import Mathlib

/-!
Verification of the region-construction core of `sfepy/fem/domain.py`:
the leaf evaluator `region_leaf`, the operator evaluator `region_op`, and
the `Domain` methods `create_region`, `create_regions` and
`save_regions_as_groups`.  Entity sets are embedded as lists of natural
numbers (numpy index arrays), `uint32` conversion is modelled as reduction
modulo 2^32, and Python exceptions are modelled with `Except String`.
Collaborator classes that live outside the translated file (the `Region`
methods from `region.py`, the selection-language parser from
`parse_regions.py`, the dependency sort) are modelled from the
specification, as marked in their doc comments.
-/

/-- A named, typed subset of mesh entities.  Mirrors the `Region` objects
manipulated by `domain.py`: per-kind index arrays plus the metadata fields
that `Domain.create_region` assigns (`name`, `definition`, `kind`,
`parent`, `parse_def`). -/
structure Region where
  name : String
  definition : String
  kind : String
  parent : Option String
  parse_def : String
  vertices : List ℕ
  edges : List ℕ
  faces : List ℕ
  facets : List ℕ
  cells : List ℕ
  deriving DecidableEq, Repr

/-- Modelled from the spec: `Region.copy` (from `region.py`, absent from
src) returns a structural duplicate of the region; with regions as pure
values the duplicate is the value itself. -/
def Region.copy (r : Region) : Region := r

/-- Modelled from the spec: `Region.set_kind` (from `region.py`, absent
from src) retags the region with the given entity kind. -/
def Region.set_kind (r : Region) (kind : String) : Region := { r with kind := kind }

/-- Modelled from the spec: `Region.update_shape` (from `region.py`,
absent from src) recomputes derived shape counts; the embedding stores no
count caches, so it is the identity. -/
def Region.update_shape (r : Region) : Region := r

/-- Set difference on index lists (left minus right). -/
def list_sub (l1 l2 : List ℕ) : List ℕ := l1.filter (fun x => !(l2.contains x))

/-- Set union on index lists. -/
def list_add (l1 l2 : List ℕ) : List ℕ := l1 ++ l2.filter (fun x => !(l1.contains x))

/-- Set intersection on index lists. -/
def list_int (l1 l2 : List ℕ) : List ℕ := l1.filter (fun x => l2.contains x)

/-- Dispatch of the one-character operation code produced by `region_op`
('-': subtract, '+': add, '*': intersect); callers only pass these three
characters, mirroring the fixed dict in `region_op`. -/
def eval_op_list (op : Char) (l1 l2 : List ℕ) : List ℕ :=
  match op with
  | '-' => list_sub l1 l2
  | '+' => list_add l1 l2
  | _ => list_int l1 l2

/-- Modelled from the spec: `Region.eval_op_vertices` (from `region.py`,
absent from src) combines the two operands' vertex sets with the given set
operation and returns a new vertex-kind region. -/
def Region.eval_op_vertices (item1 item2 : Region) (op : Char) : Region :=
  { name := "op", definition := item1.definition, kind := "vertex", parent := none,
    parse_def := "", vertices := eval_op_list op item1.vertices item2.vertices,
    edges := [], faces := [], facets := [], cells := [] }

/-- Modelled from the spec: `Region.eval_op_edges` (from `region.py`,
absent from src). -/
def Region.eval_op_edges (item1 item2 : Region) (op : Char) : Region :=
  { name := "op", definition := item1.definition, kind := "edge", parent := none,
    parse_def := "", vertices := [], edges := eval_op_list op item1.edges item2.edges,
    faces := [], facets := [], cells := [] }

/-- Modelled from the spec: `Region.eval_op_faces` (from `region.py`,
absent from src). -/
def Region.eval_op_faces (item1 item2 : Region) (op : Char) : Region :=
  { name := "op", definition := item1.definition, kind := "face", parent := none,
    parse_def := "", vertices := [], edges := [],
    faces := eval_op_list op item1.faces item2.faces, facets := [], cells := [] }

/-- Modelled from the spec: `Region.eval_op_facets` (from `region.py`,
absent from src). -/
def Region.eval_op_facets (item1 item2 : Region) (op : Char) : Region :=
  { name := "op", definition := item1.definition, kind := "facet", parent := none,
    parse_def := "", vertices := [], edges := [], faces := [],
    facets := eval_op_list op item1.facets item2.facets, cells := [] }

/-- Modelled from the spec: `Region.eval_op_cells` (from `region.py`,
absent from src). -/
def Region.eval_op_cells (item1 item2 : Region) (op : Char) : Region :=
  { name := "op", definition := item1.definition, kind := "cell", parent := none,
    parse_def := "", vertices := [], edges := [], faces := [], facets := [],
    cells := eval_op_list op item1.cells item2.cells }

/-- The dict `\x7b'S' : '-', 'A' : '+', 'I' : '*'\x7d` of `region_op`;
`none` models the `KeyError` a Python dict lookup raises on other keys. -/
def sub_add_int_code (c : Char) : Option Char :=
  match c with
  | 'S' => some '-'
  | 'A' => some '+'
  | 'I' => some '*'
  | _ => none

/-- The operation character of an operator token: `token[3]` looked up in
the `region_op` dict; `none` models the Python `IndexError`/`KeyError`. -/
def op_char (op_code : String) : Option Char :=
  (op_code.data[3]?).bind sub_add_int_code

/-- `region_op` from `domain.py`: decode the operation from the token's
fourth character and dispatch on the token's last character to the typed
set-algebra method.  `token[3]` out of range or an unknown operation
character (Python `IndexError`/`KeyError`) and an unknown final character
(the explicit `ValueError`) are all modelled as errors. -/
def region_op (op_code : String) (item1 item2 : Region) : Except String Region :=
  let token := op_code
  match op_char token with
  | none => .error ("invalid operator token! (" ++ token ++ ")")
  | some op =>
    match token.data.getLast? with
    | some 'V' => .ok (item1.eval_op_vertices item2 op)
    | some 'E' => .ok (item1.eval_op_edges item2 op)
    | some 'F' => .ok (item1.eval_op_faces item2 op)
    | some 'S' => .ok (item1.eval_op_facets item2 op)
    | some 'C' => .ok (item1.eval_op_cells item2 op)
    | _ => .error ("unknown region operator token! (" ++ token ++ ")")

/-- Spec-side description of the three combinators, keyed by the token's
operation character: 'S' is set difference, 'A' is union, 'I' is
intersection. -/
def specSetOp (c : Char) (x : ℕ) (s1 s2 : List ℕ) : Prop :=
  match c with
  | 'S' => x ∈ s1 ∧ x ∉ s2
  | 'A' => x ∈ s1 ∨ x ∈ s2
  | _ => x ∈ s1 ∧ x ∈ s2

/-- Spec-side selection of the entity-kind field named by a target-kind
suffix character (V, E, F, S, C). -/
def entityField (k : Char) (r : Region) : List ℕ :=
  match k with
  | 'V' => r.vertices
  | 'E' => r.edges
  | 'F' => r.faces
  | 'S' => r.facets
  | _ => r.cells

lemma mem_list_sub (x : ℕ) (l1 l2 : List ℕ) : x ∈ list_sub l1 l2 ↔ x ∈ l1 ∧ x ∉ l2 := by
  simp [list_sub, List.mem_filter]

lemma mem_list_add (x : ℕ) (l1 l2 : List ℕ) : x ∈ list_add l1 l2 ↔ x ∈ l1 ∨ x ∈ l2 := by
  simp [list_add, List.mem_filter]
  tauto

lemma mem_list_int (x : ℕ) (l1 l2 : List ℕ) : x ∈ list_int l1 l2 ↔ x ∈ l1 ∧ x ∈ l2 := by
  simp [list_int, List.mem_filter]

/-- Example regions for the concrete scenario of the operator claims. -/
def mkVertexRegion (nm : String) (vs : List ℕ) : Region :=
  { name := nm, definition := "", kind := "vertex", parent := none, parse_def := "",
    vertices := vs, edges := [], faces := [], facets := [], cells := [] }

lemma region_op_eq_V (tok : String) (i1 i2 : Region) (op : Char)
    (h : op_char tok = some op) (h3 : tok.data.getLast? = some 'V') :
    region_op tok i1 i2 = .ok (i1.eval_op_vertices i2 op) := by
  simp only [region_op, h, h3]

lemma region_op_eq_E (tok : String) (i1 i2 : Region) (op : Char)
    (h : op_char tok = some op) (h3 : tok.data.getLast? = some 'E') :
    region_op tok i1 i2 = .ok (i1.eval_op_edges i2 op) := by
  simp only [region_op, h, h3]

lemma region_op_eq_F (tok : String) (i1 i2 : Region) (op : Char)
    (h : op_char tok = some op) (h3 : tok.data.getLast? = some 'F') :
    region_op tok i1 i2 = .ok (i1.eval_op_faces i2 op) := by
  simp only [region_op, h, h3]

lemma region_op_eq_S (tok : String) (i1 i2 : Region) (op : Char)
    (h : op_char tok = some op) (h3 : tok.data.getLast? = some 'S') :
    region_op tok i1 i2 = .ok (i1.eval_op_facets i2 op) := by
  simp only [region_op, h, h3]

lemma region_op_eq_C (tok : String) (i1 i2 : Region) (op : Char)
    (h : op_char tok = some op) (h3 : tok.data.getLast? = some 'C') :
    region_op tok i1 i2 = .ok (i1.eval_op_cells i2 op) := by
  simp only [region_op, h, h3]

lemma op_char_of_third (tok : String) (c3 : Char) (h1 : tok.data[3]? = some c3) :
    op_char tok = sub_add_int_code c3 := by
  simp only [op_char, h1, Option.some_bind]

/-- C1: for every pair of operand regions and every operator token whose
operation character (index 3) is S/A/I and whose final character is one of
V/E/F/S/C, `region_op` succeeds and combines exactly the entity-kind field
selected by the suffix, with subtract as set difference, add as set union
and intersect as set intersection; in particular, on vertex regions
R1 with vertices 0,1,2 and R2 with vertices 2,3 the three operators yield
0,1 and 0,1,2,3 and 2 respectively. -/
theorem region_op_applies_set_algebra :
    (∀ (item1 item2 : Region) (tok : String) (c3 ck : Char),
      tok.data[3]? = some c3 → (c3 = 'S' ∨ c3 = 'A' ∨ c3 = 'I') →
      tok.data.getLast? = some ck →
      (ck = 'V' ∨ ck = 'E' ∨ ck = 'F' ∨ ck = 'S' ∨ ck = 'C') →
      ∃ r, region_op tok item1 item2 = .ok r ∧
        ∀ x, x ∈ entityField ck r ↔
          specSetOp c3 x (entityField ck item1) (entityField ck item2))
    ∧ (region_op "OA_SubV" (mkVertexRegion "R1" [0, 1, 2]) (mkVertexRegion "R2" [2, 3])).map
        Region.vertices = .ok [0, 1]
    ∧ (region_op "OA_AddV" (mkVertexRegion "R1" [0, 1, 2]) (mkVertexRegion "R2" [2, 3])).map
        Region.vertices = .ok [0, 1, 2, 3]
    ∧ (region_op "OA_IntersectV" (mkVertexRegion "R1" [0, 1, 2]) (mkVertexRegion "R2" [2, 3])).map
        Region.vertices = .ok [2] := by
  refine ⟨?_, by rfl, by rfl, by rfl⟩
  intro item1 item2 tok c3 ck h1 hc3 h3 hck
  have hop := op_char_of_third tok c3 h1
  rcases hc3 with rfl | rfl | rfl <;> rw [sub_add_int_code] at hop <;>
    rcases hck with rfl | rfl | rfl | rfl | rfl
  case' inl.inl => refine ⟨_, region_op_eq_V tok item1 item2 '-' hop h3, ?_⟩
  case' inl.inr.inl => refine ⟨_, region_op_eq_E tok item1 item2 '-' hop h3, ?_⟩
  case' inl.inr.inr.inl => refine ⟨_, region_op_eq_F tok item1 item2 '-' hop h3, ?_⟩
  case' inl.inr.inr.inr.inl => refine ⟨_, region_op_eq_S tok item1 item2 '-' hop h3, ?_⟩
  case' inl.inr.inr.inr.inr => refine ⟨_, region_op_eq_C tok item1 item2 '-' hop h3, ?_⟩
  case' inr.inl.inl => refine ⟨_, region_op_eq_V tok item1 item2 '+' hop h3, ?_⟩
  case' inr.inl.inr.inl => refine ⟨_, region_op_eq_E tok item1 item2 '+' hop h3, ?_⟩
  case' inr.inl.inr.inr.inl => refine ⟨_, region_op_eq_F tok item1 item2 '+' hop h3, ?_⟩
  case' inr.inl.inr.inr.inr.inl => refine ⟨_, region_op_eq_S tok item1 item2 '+' hop h3, ?_⟩
  case' inr.inl.inr.inr.inr.inr => refine ⟨_, region_op_eq_C tok item1 item2 '+' hop h3, ?_⟩
  case' inr.inr.inl => refine ⟨_, region_op_eq_V tok item1 item2 '*' hop h3, ?_⟩
  case' inr.inr.inr.inl => refine ⟨_, region_op_eq_E tok item1 item2 '*' hop h3, ?_⟩
  case' inr.inr.inr.inr.inl => refine ⟨_, region_op_eq_F tok item1 item2 '*' hop h3, ?_⟩
  case' inr.inr.inr.inr.inr.inl => refine ⟨_, region_op_eq_S tok item1 item2 '*' hop h3, ?_⟩
  case' inr.inr.inr.inr.inr.inr => refine ⟨_, region_op_eq_C tok item1 item2 '*' hop h3, ?_⟩
  all_goals intro x
  all_goals
    simp [entityField, specSetOp, Region.eval_op_vertices, Region.eval_op_edges,
      Region.eval_op_faces, Region.eval_op_facets, Region.eval_op_cells, eval_op_list,
      mem_list_sub, mem_list_add, mem_list_int]

/-- Closed witness for `region_op_applies_set_algebra`, instantiating the
general part at the token OA_SubV and the concrete scenario regions. -/
theorem region_op_applies_set_algebra_witness :
    ∃ r, region_op "OA_SubV" (mkVertexRegion "R1" [0, 1, 2]) (mkVertexRegion "R2" [2, 3]) =
        .ok r ∧
      ∀ x, x ∈ entityField 'V' r ↔
        specSetOp 'S' x (entityField 'V' (mkVertexRegion "R1" [0, 1, 2]))
          (entityField 'V' (mkVertexRegion "R2" [2, 3])) :=
  region_op_applies_set_algebra.1 (mkVertexRegion "R1" [0, 1, 2]) (mkVertexRegion "R2" [2, 3])
    "OA_SubV" 'S' 'V' (by decide) (Or.inl rfl) (by decide) (Or.inl rfl)

/-- The mesh data consulted by `region_leaf` and the `Domain` methods:
vertex count, space dimension, per-vertex node-group tags, per-group cell
offsets, and the named boundary-condition vertex sets. -/
structure Mesh where
  n_nod : ℕ
  dim : ℕ
  ngroups : List ℤ
  el_offsets : List ℕ
  nodal_bcs : List (String × List ℕ)
  deriving DecidableEq, Repr

/-- The domain context of one evaluation: the mesh, the boundary facets
returned by the cmesh collaborator, the material-id-to-group map, the
per-group element counts, and the coordinate-predicate evaluation engine
(an out-of-scope collaborator, modelled as an oracle from the predicate
text to the selected vertex indices). -/
structure Domain where
  mesh : Mesh
  surface_facets : List ℕ
  mat_ids_to_i_gs : List (ℤ × ℕ)
  group_n_els : List ℕ
  where_eval : String → List ℕ

/-- One entry of the postfix operation stack: the token name and the raw
matched strings (`op['token']` and `op['orig']`). -/
structure Token where
  token : String
  orig : List String
  deriving DecidableEq, Repr

/-- numpy uint32 conversion: indices are reduced modulo 2^32, so negative
Python ints wrap around to large values. -/
def uint32 (i : ℤ) : ℕ := (i % (2 ^ 32 : ℤ)).toNat

/-- Decimal digit value of a character. -/
def digitVal (c : Char) : Option ℕ :=
  if c.isDigit then some (c.toNat - '0'.toNat) else none

/-- Accumulating decimal reader. -/
def natOfCharsGo : List Char → ℕ → Option ℕ
  | [], acc => some acc
  | c :: rest, acc =>
    match digitVal c with
    | none => none
    | some d => natOfCharsGo rest (acc * 10 + d)

/-- Nonempty all-digit character list as a natural number. -/
def natOfChars (cs : List Char) : Option ℕ :=
  if cs.isEmpty then none else natOfCharsGo cs 0

/-- The Python `int(...)` conversion applied to a literal token: an
optional minus sign followed by digits; `none` models the `ValueError`
on other strings. -/
def intOfChars : List Char → Option ℤ
  | '-' :: ds => (natOfChars ds).map (fun n => -(n : ℤ))
  | ds => (natOfChars ds).map (fun n => (n : ℤ))

/-- Strip leading and trailing spaces. -/
def trimChars (cs : List Char) : List Char :=
  ((cs.dropWhile (fun c => c == ' ')).reverse.dropWhile (fun c => c == ' ')).reverse

/-- Split a character list on commas (an empty input yields one empty
part, as Python split does). -/
def splitCommasGo : List Char → List Char → List (List Char)
  | [], acc => [acc.reverse]
  | c :: rest, acc =>
    if c = ',' then acc.reverse :: splitCommasGo rest []
    else splitCommasGo rest (c :: acc)

/-- Modelled as the Python builtin `eval` applied to a bracketed
integer-list literal (the `where[0] == '['` case of the E_VIR branch):
accepts `[i0, i1, ...]` and returns the integers; `none` models the
exception `eval` raises on other inputs. -/
def evalIntList (w : String) : Option (List ℤ) :=
  let cs := w.data
  if cs.head? = some '[' ∧ cs.getLast? = some ']' then
    let inner := (cs.drop 1).dropLast
    if trimChars inner = [] then some []
    else (splitCommasGo inner []).mapM (fun p => intOfChars (trimChars p))
  else none

/-- Global-cell translation loop of the E_CI2 branch: successive
(group, element) pairs are turned into `iel + el_offsets[ig]`; an odd
trailing element is ignored, matching `num = len(details[1:]) / 2`.
Negative indices (Python indexing from the end) do not occur in region
definitions and are rejected. -/
def ci2_cells (el_offsets : List ℕ) : List ℤ → Except String (List ℕ)
  | [] => .ok []
  | [_] => .ok []
  | ig :: iel :: rest =>
    if ig < 0 ∨ iel < 0 then .error "negative cell index"
    else
      match el_offsets[ig.toNat]? with
      | none => .error "group index out of range"
      | some off =>
        match ci2_cells el_offsets rest with
        | .error e => .error e
        | .ok cs => .ok ((iel.toNat + off) :: cs)

/-- `region_leaf` from `domain.py`: create/setup a region instance
according to the leaf token.  Python exceptions (`ValueError`, failed
`assert_`, `KeyError`, `IndexError`, `NotImplementedError`) are modelled
as errors. -/
def region_leaf (domain : Domain) (regions : List Region) (rdef : String)
    (functions : List (String × List ℕ)) (op : Token) : Except String Region :=
  let token := op.token
  let details := op.orig
  let region0 : Region :=
    { name := "leaf", definition := rdef, kind := "cell", parent := none,
      parse_def := token ++ "<" ++ String.intercalate " " details ++ ">",
      vertices := [], edges := [], faces := [], facets := [], cells := [] }
  if token = "KW_Region" then
    match details[1]? with
    | none => .error "KW_Region: index out of range"
    | some d =>
      let nm := d.drop 2
      match regions.find? (fun r => r.name == nm) with
      | none => .error ("region " ++ nm ++ " does not exist")
      | some aux => if rdef.take 4 = "copy" then .ok aux.copy else .ok aux
  else if token = "KW_All" then
    .ok { region0 with vertices := List.range domain.mesh.n_nod }
  else if token = "E_VIR" then
    match details[2]? with
    | none => .error "E_VIR: index out of range"
    | some w =>
      if w.take 1 = "[" then
        match evalIntList w with
        | none => .error ("eval failed: " ++ w)
        | some nums =>
          match nums.map uint32 with
          | [] => .error "zero-size array to reduction operation"
          | v :: vs =>
            if 0 ≤ List.foldr min v vs then
              if List.foldr max v vs < domain.mesh.n_nod then
                .ok { region0 with vertices := v :: vs }
              else .error "assertion failed! (max(vertices) < n_nod)"
            else .error "assertion failed! (min(vertices) >= 0)"
      else .ok { region0 with vertices := domain.where_eval w }
  else if token = "E_VOS" then
    .ok { (region0.set_kind "facet") with facets := domain.surface_facets }
  else if token = "E_VBF" then
    match details[2]? with
    | none => .error "E_VBF: index out of range"
    | some w =>
      match functions.lookup w with
      | none => .error ("undefined function! (" ++ w ++ ")")
      | some vs => .ok { region0 with vertices := vs }
  else if token = "E_CBF" then
    match details[2]? with
    | none => .error "E_CBF: index out of range"
    | some w =>
      match functions.lookup w with
      | none => .error ("undefined function! (" ++ w ++ ")")
      | some cs => .ok { region0 with cells := cs }
  else if token = "E_COG" then
    match details[3]? with
    | none => .error "E_COG: index out of range"
    | some g =>
      match intOfChars g.data with
      | none => .error ("invalid literal for int! (" ++ g ++ ")")
      | some group =>
        match domain.mat_ids_to_i_gs.lookup group with
        | none => .error "group id not found"
        | some ig =>
          match domain.mesh.el_offsets[ig]?, domain.group_n_els[ig]? with
          | some off, some nel =>
            .ok { region0 with cells := (List.range nel).map (fun i => off + i) }
          | _, _ => .error "group index out of range"
  else if token = "E_COSET" then
    .error "element sets not implemented!"
  else if token = "E_VOG" then
    match details[3]? with
    | none => .error "E_VOG: index out of range"
    | some g =>
      match intOfChars g.data with
      | none => .error ("invalid literal for int! (" ++ g ++ ")")
      | some group =>
        let sel := fun i => domain.mesh.ngroups.getD i 0 == group
        .ok { region0 with vertices := (List.range domain.mesh.ngroups.length).filter sel }
  else if token = "E_VOSET" then
    match details[3]? with
    | none => .error "E_VOSET: index out of range"
    | some s =>
      match domain.mesh.nodal_bcs.lookup s with
      | none => .error ("undefined vertex set! (" ++ s ++ ")")
      | some vs => .ok { region0 with vertices := vs }
  else if token = "E_OVIR" then
    match details[3]? with
    | none => .error "E_OVIR: index out of range"
    | some d =>
      let nm := d.drop 2
      match regions.find? (fun r => r.name == nm) with
      | none => .error ("region " ++ nm ++ " does not exist")
      | some aux => .ok { region0 with vertices := aux.vertices.take 1 }
  else if token = "E_VI" then
    match (details.drop 1).mapM (fun s => intOfChars s.data) with
    | none => .error "invalid literal for int!"
    | some ints => .ok { region0 with vertices := ints.map uint32 }
  else if token = "E_CI1" then
    match (details.drop 1).mapM (fun s => intOfChars s.data) with
    | none => .error "invalid literal for int!"
    | some ints => .ok { region0 with cells := ints.map uint32 }
  else if token = "E_CI2" then
    match (details.drop 1).mapM (fun s => intOfChars s.data) with
    | none => .error "invalid literal for int!"
    | some ints =>
      match ci2_cells domain.mesh.el_offsets ints with
      | .error e => .error e
      | .ok cs => .ok { region0 with cells := cs }
  else
    .error ("token " ++ token ++ " unkown - check regions!")

/-- In the source the KW_Region branch without "copy" returns the stored
region object itself, so later in-place field assignments reach the stored
region.  `leafAlias` names the region a leaf token aliases, `none` for
every fresh-region leaf and for the copy path. -/
def leafAlias (rdef : String) (t : Token) : Option String :=
  if t.token = "KW_Region" ∧ ¬ rdef.take 4 = "copy" then
    (t.orig[1]?).map (fun s => s.drop 2)
  else none

/-- A 4-vertex demo mesh used by the concrete instances. -/
def demoMesh : Mesh :=
  { n_nod := 4, dim := 2, ngroups := [0, 0, 0, 0], el_offsets := [0], nodal_bcs := [] }

/-- Demo domain over `demoMesh`. -/
def demoDomain : Domain :=
  { mesh := demoMesh, surface_facets := [], mat_ids_to_i_gs := [], group_n_els := [],
    where_eval := fun _ => [] }

/-- A materialized whole-domain demo region named Y. -/
def regionY : Region :=
  { name := "Y", definition := "all", kind := "cell", parent := none, parse_def := "",
    vertices := [0, 1, 2, 3], edges := [], faces := [], facets := [], cells := [] }

/-- A materialized demo region with an empty vertex array. -/
def regionEmptyV : Region :=
  { name := "E", definition := "", kind := "vertex", parent := none, parse_def := "",
    vertices := [], edges := [], faces := [], facets := [], cells := [] }

/-- C3: the whole-domain leaf produces a region whose vertex set is
exactly every vertex index below the mesh vertex count. -/
theorem kw_all_selects_every_vertex (d : Domain) (regs : List Region) (rdef : String)
    (fns : List (String × List ℕ)) (o : List String) :
    ∃ r, region_leaf d regs rdef fns ⟨"KW_All", o⟩ = .ok r ∧
      ∀ i, i ∈ r.vertices ↔ i < d.mesh.n_nod := by
  refine ⟨{ name := "leaf", definition := rdef, kind := "cell", parent := none,
            parse_def := "KW_All" ++ "<" ++ String.intercalate " " o ++ ">",
            vertices := List.range d.mesh.n_nod, edges := [], faces := [], facets := [],
            cells := [] }, ?_, ?_⟩
  · rfl
  · intro i
    simp [List.mem_range]

/-- C5: a named-reference leaf looks the name up among the materialized
regions; an absent name is an error; with a definition requesting copy the
result is the structural duplicate and carries no alias; otherwise the
result is the stored region itself, marked as an alias of it. -/
theorem named_reference_lookup_semantics (d : Domain) (regs : List Region) (rdef : String)
    (fns : List (String × List ℕ)) (o : List String) (s : String)
    (h1 : o[1]? = some s) :
    (regs.find? (fun r => r.name == s.drop 2) = none →
      region_leaf d regs rdef fns ⟨"KW_Region", o⟩ =
        .error ("region " ++ s.drop 2 ++ " does not exist"))
    ∧ (∀ aux, regs.find? (fun r => r.name == s.drop 2) = some aux →
        (rdef.take 4 = "copy" →
          region_leaf d regs rdef fns ⟨"KW_Region", o⟩ = .ok aux.copy ∧
          leafAlias rdef ⟨"KW_Region", o⟩ = none)
        ∧ (¬ rdef.take 4 = "copy" →
          region_leaf d regs rdef fns ⟨"KW_Region", o⟩ = .ok aux ∧
          leafAlias rdef ⟨"KW_Region", o⟩ = some (s.drop 2))) := by
  constructor
  · intro h
    simp [region_leaf, h1, h]
  · intro aux h
    constructor
    · intro hc
      constructor
      · simp [region_leaf, h1, h, hc]
      · simp [leafAlias, hc]
    · intro hc
      constructor
      · simp [region_leaf, h1, h, hc]
      · simp [leafAlias, hc, h1]

/-- Closed witness for `named_reference_lookup_semantics` at a concrete
domain with one materialized region. -/
theorem named_reference_lookup_semantics_witness :
    (([regionY].find? (fun r => r.name == ("r.Y".drop 2)) = none →
      region_leaf demoDomain [regionY] "r.Y" [] ⟨"KW_Region", ["region", "r.Y"]⟩ =
        .error ("region " ++ "r.Y".drop 2 ++ " does not exist"))
    ∧ (∀ aux, [regionY].find? (fun r => r.name == ("r.Y".drop 2)) = some aux →
        ("r.Y".take 4 = "copy" →
          region_leaf demoDomain [regionY] "r.Y" [] ⟨"KW_Region", ["region", "r.Y"]⟩ =
            .ok aux.copy ∧
          leafAlias "r.Y" ⟨"KW_Region", ["region", "r.Y"]⟩ = none)
        ∧ (¬ "r.Y".take 4 = "copy" →
          region_leaf demoDomain [regionY] "r.Y" [] ⟨"KW_Region", ["region", "r.Y"]⟩ =
            .ok aux ∧
          leafAlias "r.Y" ⟨"KW_Region", ["region", "r.Y"]⟩ = some ("r.Y".drop 2)))) :=
  named_reference_lookup_semantics demoDomain [regionY] "r.Y" [] ["region", "r.Y"] "r.Y" rfl

/-- C10: the single-vertex-of-region leaf takes the one-element prefix of
the referenced region's vertex array: the first vertex when the array is
nonempty, the empty set (with no error) when it is empty. -/
theorem ovir_takes_first_vertex (d : Domain) (regs : List Region) (rdef : String)
    (fns : List (String × List ℕ)) (o : List String) (s : String) (aux : Region)
    (h1 : o[3]? = some s)
    (h2 : regs.find? (fun r => r.name == s.drop 2) = some aux) :
    ∃ r, region_leaf d regs rdef fns ⟨"E_OVIR", o⟩ = .ok r ∧
      r.vertices = aux.vertices.take 1 ∧
      (aux.vertices = [] → r.vertices = []) ∧
      ∀ v t, aux.vertices = v :: t → r.vertices = [v] := by
  refine ⟨{ name := "leaf", definition := rdef, kind := "cell", parent := none,
            parse_def := "E_OVIR" ++ "<" ++ String.intercalate " " o ++ ">",
            vertices := aux.vertices.take 1, edges := [], faces := [], facets := [],
            cells := [] }, ?_, rfl, ?_, ?_⟩
  · simp [region_leaf, h1, h2]
  · intro h
    simp [h]
  · intro v t h
    simp [h]

/-- Closed witness for `ovir_takes_first_vertex`: applied both to a
nonempty-vertex region (selecting its first vertex) and to an
empty-vertex region (selecting nothing, without error). -/
theorem ovir_takes_first_vertex_witness :
    (∃ r, region_leaf demoDomain [regionY, regionEmptyV] "ovir" []
          ⟨"E_OVIR", ["vertex", "0", "of", "r.Y"]⟩ = .ok r ∧
        r.vertices = regionY.vertices.take 1 ∧
        (regionY.vertices = [] → r.vertices = []) ∧
        ∀ v t, regionY.vertices = v :: t → r.vertices = [v])
    ∧ (∃ r, region_leaf demoDomain [regionY, regionEmptyV] "ovir" []
          ⟨"E_OVIR", ["vertex", "0", "of", "r.E"]⟩ = .ok r ∧
        r.vertices = regionEmptyV.vertices.take 1 ∧
        (regionEmptyV.vertices = [] → r.vertices = []) ∧
        ∀ v t, regionEmptyV.vertices = v :: t → r.vertices = [v]) :=
  ⟨ovir_takes_first_vertex demoDomain [regionY, regionEmptyV] "ovir" []
      ["vertex", "0", "of", "r.Y"] "r.Y" regionY rfl (by decide),
    ovir_takes_first_vertex demoDomain [regionY, regionEmptyV] "ovir" []
      ["vertex", "0", "of", "r.E"] "r.E" regionEmptyV rfl (by decide)⟩

/-- Split a character list into space-separated words. -/
def splitWsGo : List Char → List Char → List String
  | [], acc => if acc.isEmpty then [] else [String.mk acc.reverse]
  | c :: rest, acc =>
    if c = ' ' then
      if acc.isEmpty then splitWsGo rest []
      else String.mk acc.reverse :: splitWsGo rest []
    else splitWsGo rest (c :: acc)

/-- Rejoin a whitespace-split bracketed index literal into one token: the
accumulator holds a pending open bracket group. -/
def mergeBrGo : List String → Option String → List String
  | [], none => []
  | [], some acc => [acc]
  | w :: rest, none =>
    if w.take 1 = "[" ∧ ¬ w.takeRight 1 = "]" then mergeBrGo rest (some w)
    else w :: mergeBrGo rest none
  | w :: rest, some acc =>
    if w.takeRight 1 = "]" then (acc ++ " " ++ w) :: mergeBrGo rest none
    else mergeBrGo rest (some (acc ++ " " ++ w))

/-- Modelled from the spec: the tokenizer of the selection-language
parser (`parse_regions.py`, absent from src).  Splits on spaces, keeping
a bracketed index literal as a single token; parentheses are
whitespace-separated tokens in this modelled subset of the grammar. -/
def tokenize (s : String) : List String :=
  mergeBrGo (splitWsGo s.data []) none

/-- Modelled from the spec: recognition of an infix set operator, one of
+, -, * followed by a target-kind code v/e/f/s/c, producing the operator
token consumed by `region_op`. -/
def opName (s : String) : Option String :=
  match s.data with
  | [c, k] =>
    match (if c = '+' then some "OA_Add"
           else if c = '-' then some "OA_Sub"
           else if c = '*' then some "OA_Intersect" else none),
          (if k = 'v' then some "V" else if k = 'e' then some "E"
           else if k = 'f' then some "F" else if k = 's' then some "S"
           else if k = 'c' then some "C" else none) with
    | some b, some kk => some (b ++ kk)
    | _, _ => none
  | _ => none

/-- True for a token that is an integer literal. -/
def isNumTok (w : String) : Bool := (intOfChars w.data).isSome

/-- One entry of the postfix operation stack produced by the parser:
either a leaf token or a binary operator token. -/
inductive StackOp where
  | leaf : Token → StackOp
  | binop : String → StackOp
  deriving DecidableEq, Repr

/-- Modelled from the spec: leaf recognition of the selection-language
parser (`parse_regions.py`, absent from src).  Covers the leaf forms the
spec lists; the raw matched strings are arranged so that the positions
`region_leaf` reads (orig[1] for named references, orig[2] for
where-clauses, orig[1:] for index lists, orig[3] for group numbers) carry
the corresponding arguments. -/
def mkLeaf : List String → Option (Token × List String)
  | "all" :: rest => some (⟨"KW_All", ["all"]⟩, rest)
  | "copy" :: w :: rest =>
    if w.take 2 = "r." then some (⟨"KW_Region", ["copy", w]⟩, rest) else none
  | "vertices" :: "of" :: "surface" :: rest =>
    some (⟨"E_VOS", ["vertices", "of", "surface"]⟩, rest)
  | "vertices" :: "of" :: "group" :: g :: rest =>
    some (⟨"E_VOG", ["vertices", "of", "group", g]⟩, rest)
  | "elements" :: "of" :: "group" :: g :: rest =>
    some (⟨"E_COG", ["elements", "of", "group", g]⟩, rest)
  | "vertices" :: "in" :: w :: rest =>
    if w.take 1 = "[" then some (⟨"E_VIR", ["vertices", "in", w]⟩, rest) else none
  | "vertices" :: "by" :: f :: rest => some (⟨"E_VBF", ["vertices", "by", f]⟩, rest)
  | "cells" :: "by" :: f :: rest => some (⟨"E_CBF", ["cells", "by", f]⟩, rest)
  | "vertex" :: rest =>
    let nums := rest.takeWhile isNumTok
    if nums.isEmpty then none
    else some (⟨"E_VI", "vertex" :: nums⟩, rest.dropWhile isNumTok)
  | "element" :: rest =>
    let nums := rest.takeWhile isNumTok
    if nums.isEmpty then none
    else some (⟨"E_CI1", "element" :: nums⟩, rest.dropWhile isNumTok)
  | w :: rest =>
    if w.take 2 = "r." then some (⟨"KW_Region", ["region", w]⟩, rest) else none
  | [] => none

/-- Modelled from the spec: the recursive-descent expression parser
(`parse_regions.py`, absent from src), producing a postfix stack.  An
expression is a leaf or a parenthesized binary combination of two
sub-expressions; the fuel argument bounds the nesting depth. -/
def parseExprGo : ℕ → List String → Except String (List StackOp × List String)
  | 0, _ => .error "parse error: expression too deep"
  | _ + 1, [] => .error "parse error: unexpected end of input"
  | n + 1, "(" :: rest =>
    match parseExprGo n rest with
    | .error e => .error e
    | .ok (s1, rest1) =>
      match rest1 with
      | [] => .error "parse error: expected operator"
      | o :: rest2 =>
        match opName o with
        | none => .error ("parse error at " ++ o)
        | some tok =>
          match parseExprGo n rest2 with
          | .error e => .error e
          | .ok (s2, rest3) =>
            match rest3 with
            | ")" :: rest4 => .ok (s1 ++ s2 ++ [StackOp.binop tok], rest4)
            | _ => .error "parse error: expected closing parenthesis"
  | _ + 1, toks =>
    match mkLeaf toks with
    | some (t, rest) => .ok ([StackOp.leaf t], rest)
    | none => .error ("parse error: " ++ String.intercalate " " toks)

/-- Modelled from the spec: `create_bnf(...).parseString` from
`parse_regions.py` (absent from src): parse the whole selection text into
a postfix token stack, failing on malformed text. -/
def parse (select : String) : Except String (List StackOp) :=
  let toks := tokenize select
  match parseExprGo (toks.length + 1) toks with
  | .error e => .error e
  | .ok (stack, []) => .ok stack
  | .ok (_, t :: _) => .error ("parse error: trailing input at " ++ t)

/-- Modelled from the spec: `visit_stack` from `parse_regions.py` (absent
from src): replay the postfix stack against the leaf and operator
evaluators over an explicit operand stack; a leaf pushes, an operator pops
two operands (the earlier-pushed one is the left operand) and pushes the
combination; exactly one region must remain. -/
def visit_stack_go (domain : Domain) (regions : List Region) (rdef : String)
    (functions : List (String × List ℕ)) :
    List StackOp → List Region → Except String Region
  | [], [r] => .ok r
  | [], _ => .error "visit_stack: malformed stack"
  | StackOp.leaf t :: rest, operands =>
    match region_leaf domain regions rdef functions t with
    | .error e => .error e
    | .ok r => visit_stack_go domain regions rdef functions rest (r :: operands)
  | StackOp.binop tok :: rest, i2 :: i1 :: operands =>
    match region_op tok i1 i2 with
    | .error e => .error e
    | .ok r => visit_stack_go domain regions rdef functions rest (r :: operands)
  | StackOp.binop _ :: _, _ => .error "visit_stack: missing operands"

/-- Modelled from the spec: the driver of the stack interpreter. -/
def visit_stack (domain : Domain) (regions : List Region) (rdef : String)
    (functions : List (String × List ℕ)) (stack : List StackOp) : Except String Region :=
  visit_stack_go domain regions rdef functions stack []

/-- The final value of `visit_stack` is the stored region object itself
(rather than a fresh region) exactly when the whole stack is one bare
non-copy named-reference leaf: every operator and every other leaf builds
a new region.  `aliasStack` names the stored region in that case, so that
`create_region`'s in-place field updates can be applied to it. -/
def aliasStack (rdef : String) (stack : List StackOp) : Option String :=
  match stack with
  | [StackOp.leaf t] => leafAlias rdef t
  | _ => none

/-- Name characters of a named-region reference in selection text. -/
def nameChar (c : Char) : Bool := c.isAlphanum || c == '_'

/-- Modelled from the spec: the raw-text scan of `get_parents` from
`region.py` (absent from src): every occurrence of "r." followed by a
nonempty name is recorded as a referenced region name, including
coincidental matches inside other words (the spec notes this
false-positive risk of scanning raw text).  The state records how much of
the "r." prefix is matched (0 or 1) or that a name is being collected
(2, with the reversed name characters in the accumulator). -/
def get_parentsGo : List Char → ℕ → List Char → List String
  | [], _, acc => if acc.isEmpty then [] else [String.mk acc.reverse]
  | c :: rest, 0, _ =>
    if c = 'r' then get_parentsGo rest 1 [] else get_parentsGo rest 0 []
  | c :: rest, 1, _ =>
    if c = '.' then get_parentsGo rest 2 []
    else if c = 'r' then get_parentsGo rest 1 [] else get_parentsGo rest 0 []
  | c :: rest, _, acc =>
    if nameChar c then get_parentsGo rest 2 (c :: acc)
    else
      let tail := if c = 'r' then get_parentsGo rest 1 [] else get_parentsGo rest 0 []
      if acc.isEmpty then tail else String.mk acc.reverse :: tail

/-- Modelled from the spec: `get_parents` from `region.py` (absent from
src): extract the region names referenced by a selection text. -/
def get_parents (select : String) : List String := get_parentsGo select.data 0 []

/-- `Domain.create_region` from `domain.py`: optionally pre-scan the text
for parent regions, parse the text, evaluate the stack, assign the result
region's name/definition/kind/parent, and register it.  When the
evaluated value is an alias of a stored region (bare non-copy named
reference), the field updates reach the stored region, so its slot in the
collection is replaced by the updated region; the returned pair is the
updated collection and the new region. -/
def create_region (domain : Domain) (regions : List Region) (name select kind : String)
    (parent : Option String) (check_parents add_to_regions : Bool)
    (functions : List (String × List ℕ)) : Except String (List Region × Region) :=
  match (if check_parents
         then (get_parents select).find? (fun p => !(regions.any (fun r => r.name == p)))
         else none) with
  | some p => .error ("parent region " ++ p ++ " of " ++ name ++ " not found!")
  | none =>
    match parse select with
    | .error e => .error e
    | .ok stack =>
      match visit_stack domain regions select functions stack with
      | .error e => .error e
      | .ok region =>
        let r1 := { region with name := name, definition := select }
        let r2 := r1.set_kind kind
        let r3 := { r2 with parent := parent }
        let region1 := r3.update_shape
        let base :=
          match aliasStack select stack with
          | some nm => regions.map (fun r => if r.name == nm then region1 else r)
          | none => regions
        .ok ((if add_to_regions then base ++ [region1] else base), region1)

lemma self_le_foldr_max (v : ℕ) (vs : List ℕ) : v ≤ List.foldr max v vs := by
  induction vs with
  | nil => simp
  | cons w ws ih => exact le_max_of_le_right ih

lemma le_foldr_max (a v : ℕ) (vs : List ℕ) (h : a ∈ v :: vs) :
    a ≤ List.foldr max v vs := by
  induction vs with
  | nil =>
    simp at h
    simp [h]
  | cons w ws ih =>
    simp only [List.foldr_cons]
    rcases List.mem_cons.mp h with rfl | h2
    · exact le_max_of_le_right (self_le_foldr_max a ws)
    · rcases List.mem_cons.mp h2 with rfl | h3
      · exact le_max_left a _
      · exact le_max_of_le_right (ih (List.mem_cons.mpr (Or.inr h3)))

/-- C4 (amended): in the bracketed literal form of an explicit vertex
list an entry whose uint32 value reaches the vertex count (covering both
an index at or above n_nod and, for any realistic n_nod, a negative index
after wrap-around) makes the leaf evaluation fail, and a whole-definition
evaluation of such a selection fails with no region registered; the
`vertex i0 i1 ...` form instead performs no bounds validation and always
produces its literal list. -/
theorem bracketed_vertex_list_bounds_enforced :
    (∀ (d : Domain) (regs : List Region) (rdef : String) (fns : List (String × List ℕ))
        (o : List String) (w : String) (nums : List ℤ),
      o[2]? = some w → w.take 1 = "[" → evalIntList w = some nums →
      (∃ i ∈ nums, d.mesh.n_nod ≤ uint32 i) →
      ∃ e, region_leaf d regs rdef fns ⟨"E_VIR", o⟩ = .error e)
    ∧ (∀ (d : Domain) (regs : List Region) (rdef : String) (fns : List (String × List ℕ))
        (details : List String) (ints : List ℤ),
      (details.drop 1).mapM (fun s => intOfChars s.data) = some ints →
      ∃ r, region_leaf d regs rdef fns ⟨"E_VI", details⟩ = .ok r ∧
        r.vertices = ints.map uint32)
    ∧ (∃ e, create_region demoDomain [] "X" "vertices in [5]" "cell" none true true [] =
        .error e) := by
  refine ⟨?_, ?_, ⟨_, rfl⟩⟩
  · intro d regs rdef fns o w nums ho hw he hex
    rcases hex with ⟨i, hi, hbound⟩
    rcases hm : nums.map uint32 with _ | ⟨v, vs⟩
    · rcases List.map_eq_nil_iff.mp hm with rfl
      simp at hi
    · have hmem : uint32 i ∈ v :: vs := hm ▸ List.mem_map_of_mem uint32 hi
      have hmax : d.mesh.n_nod ≤ List.foldr max v vs :=
        le_trans hbound (le_foldr_max (uint32 i) v vs hmem)
      refine ⟨"assertion failed! (max(vertices) < n_nod)", ?_⟩
      simp [region_leaf, ho, hw, he, hm, Nat.not_lt_of_le hmax]
  · intro d regs rdef fns details ints hm
    refine ⟨{ name := "leaf", definition := rdef, kind := "cell", parent := none,
              parse_def := "E_VI" ++ "<" ++ String.intercalate " " details ++ ">",
              vertices := ints.map uint32, edges := [], faces := [], facets := [],
              cells := [] }, ?_, rfl⟩
    have hm2 := hm
    rw [List.drop_one] at hm2
    simp only [List.mapM] at hm2
    simp [region_leaf, hm2]

/-- Closed witness for `bracketed_vertex_list_bounds_enforced`: the list
literal with entry 9 on the 4-vertex demo mesh fails the bounds check. -/
theorem bracketed_vertex_list_bounds_enforced_witness :
    ∃ e, region_leaf demoDomain [] "v" [] ⟨"E_VIR", ["vertices", "in", "[9]"]⟩ = .error e :=
  bracketed_vertex_list_bounds_enforced.1 demoDomain [] "v" [] ["vertices", "in", "[9]"]
    "[9]" [9] rfl rfl (by decide) ⟨9, by decide, by decide⟩

/-- Counterexample to C4 as stated: the `vertex i0 i1 ...` form (token
E_VI) with the out-of-range index 7 on the 4-vertex demo mesh raises no
error and registers a region named X holding that index. -/
theorem vertex_list_form_skips_bounds_check :
    ∃ out reg, create_region demoDomain [] "X" "vertex 7" "cell" none true true [] =
        .ok (out, reg) ∧ reg.vertices = [7] ∧ demoDomain.mesh.n_nod ≤ 7 ∧ out = [reg] := by
  refine ⟨_, _, rfl, rfl, by decide, rfl⟩

/-- Counterexample to C6 as stated: creating region X from the bare
non-copy reference definition "r.Y" mutates the consulted region Y in
place (the stored instance is renamed to X), so the previously
materialized region Y no longer appears unchanged in the collection. -/
theorem alias_definition_mutates_referenced_region :
    ∃ out reg, create_region demoDomain [regionY] "X" "r.Y" "cell" none true true [] =
        .ok (out, reg) ∧ regionY ∈ [regionY] ∧ regionY ∉ out := by
  refine ⟨_, _, rfl, by decide, by decide⟩

/-- C6 (amended): an evaluation whose definition is not a bare non-copy
named-reference leaf leaves every previously materialized region
unchanged: the updated collection is exactly the old collection with the
new region appended. -/
theorem non_alias_evaluation_preserves_regions
    (d : Domain) (regs : List Region) (name select kind : String) (parent : Option String)
    (cp : Bool) (fns : List (String × List ℕ)) (out : List Region) (reg : Region)
    (h : create_region d regs name select kind parent cp true fns = .ok (out, reg))
    (hna : ∀ stack, parse select = .ok stack → aliasStack select stack = none) :
    out = regs ++ [reg] := by
  unfold create_region at h
  split at h
  · exact absurd h (by simp)
  · split at h
    · exact absurd h (by simp)
    · rename_i stack hparse
      split at h
      · exact absurd h (by simp)
      · rename_i region hvisit
        rw [hna stack hparse] at h
        simp only [if_true, Except.ok.injEq, Prod.mk.injEq] at h
        obtain ⟨h1, h2⟩ := h
        rw [← h1, ← h2]

/-- Closed witness for `non_alias_evaluation_preserves_regions`: a
literal vertex-list definition appends its region and leaves the
materialized region Y untouched. -/
theorem non_alias_evaluation_preserves_regions_witness :
    ∃ out reg, create_region demoDomain [regionY] "Z" "vertex 1" "cell" none true true [] =
        .ok (out, reg) ∧ out = [regionY] ++ [reg] := by
  refine ⟨_, _, rfl, ?_⟩
  refine non_alias_evaluation_preserves_regions demoDomain [regionY] "Z" "vertex 1" "cell"
    none true [] _ _ rfl ?_
  intro stack hstack
  have h0 : parse "vertex 1" = .ok [StackOp.leaf ⟨"E_VI", ["vertex", "1"]⟩] := by rfl
  rw [h0] at hstack
  injection hstack with h
  rw [← h]
  decide

/-- Counterexample to C7 as stated: for the selection text
"r.Missing )(" the parse fails, but `create_region` (with the default
parent pre-scan) raises the undefined-parent error produced by the
pre-scan of the raw text, not the parse error. -/
theorem parent_scan_preempts_parse_error :
    parse "r.Missing )(" = .error "parse error: trailing input at )(" ∧
    create_region demoDomain [] "X" "r.Missing )(" "cell" none true true [] =
      .error "parent region Missing of X not found!" ∧
    ("parent region Missing of X not found!" : String) ≠
      "parse error: trailing input at )(" := by
  refine ⟨by rfl, by rfl, by decide⟩

/-- C7 (amended): when the selection text fails to parse, `create_region`
always fails and registers nothing; and whenever the parent pre-scan does
not fail first (in particular whenever it is disabled, as in
`create_regions`), the error raised is exactly the parse error, so
evaluation of the token stack is never started. -/
theorem parse_failure_aborts_creation
    (d : Domain) (regs : List Region) (name select kind : String) (parent : Option String)
    (fns : List (String × List ℕ)) (e : String) (hp : parse select = .error e) :
    (∀ cp add, ∃ e2, create_region d regs name select kind parent cp add fns = .error e2)
    ∧ ((get_parents select).find? (fun p => !(regs.any (fun r => r.name == p))) = none →
      ∀ cp add, create_region d regs name select kind parent cp add fns = .error e) := by
  constructor
  · intro cp add
    unfold create_region
    split
    · exact ⟨_, rfl⟩
    · rw [hp]
      exact ⟨e, rfl⟩
  · intro hpre cp add
    unfold create_region
    split
    · rename_i p hmatch
      cases cp with
      | true =>
        simp only [if_true] at hmatch
        rw [hpre] at hmatch
        exact absurd hmatch (by simp)
      | false => exact absurd hmatch (by simp)
    · rw [hp]

/-- Closed witness for `parse_failure_aborts_creation` at the unparsable
selection text ")(". -/
theorem parse_failure_aborts_creation_witness :
    (∀ cp add, ∃ e2, create_region demoDomain [] "W" ")(" "cell" none cp add [] = .error e2)
    ∧ ((get_parents ")(").find?
        (fun p => !(([] : List Region).any (fun r => r.name == p))) = none →
      ∀ cp add, create_region demoDomain [] "W" ")(" "cell" none cp add [] =
        .error "parse error: )(") :=
  parse_failure_aborts_creation demoDomain [] "W" ")(" "cell" none [] "parse error: )("
    (by rfl)

/-- C8: evaluating the same (name, selection text) pair twice against the
same domain state and the same materialized regions yields structurally
equal entity sets (and the same updated collection). -/
theorem create_region_deterministic
    (d : Domain) (regs : List Region) (name select kind : String) (parent : Option String)
    (cp add : Bool) (fns : List (String × List ℕ)) (o1 o2 : List Region × Region)
    (h1 : create_region d regs name select kind parent cp add fns = .ok o1)
    (h2 : create_region d regs name select kind parent cp add fns = .ok o2) :
    o1.2.vertices = o2.2.vertices ∧ o1.2.edges = o2.2.edges ∧ o1.2.faces = o2.2.faces ∧
      o1.2.facets = o2.2.facets ∧ o1.2.cells = o2.2.cells ∧ o1.1 = o2.1 := by
  have h := h1.symm.trans h2
  simp only [Except.ok.injEq] at h
  rw [h]
  exact ⟨rfl, rfl, rfl, rfl, rfl, rfl⟩

/-- Closed witness for `create_region_deterministic`: two runs on the
demo domain with the definition "vertex 0 1". -/
theorem create_region_deterministic_witness :
    ∃ o1 o2, create_region demoDomain [] "A" "vertex 0 1" "cell" none true true [] = .ok o1 ∧
      create_region demoDomain [] "A" "vertex 0 1" "cell" none true true [] = .ok o2 ∧
      (o1.2.vertices = o2.2.vertices ∧ o1.2.edges = o2.2.edges ∧
        o1.2.faces = o2.2.faces ∧ o1.2.facets = o2.2.facets ∧
        o1.2.cells = o2.2.cells ∧ o1.1 = o2.1) := by
  refine ⟨_, _, rfl, rfl, ?_⟩
  exact create_region_deterministic demoDomain [] "A" "vertex 0 1" "cell" none true true []
    _ _ rfl rfl

/-- One region definition: selection text, kind and optional parent
(the `rdef` dict entries read by `create_regions`). -/
structure RegionDef where
  select : String
  kind : String
  parent : Option String
  deriving DecidableEq, Repr

/-- Modelled from the spec: `get_dependency_graph` from `region.py`
(absent from src): one graph node per pending definition, with edges to
the region names its selection text references. -/
def get_dependency_graph (region_defs : List (String × RegionDef)) :
    List (String × List String) :=
  region_defs.map (fun p => (p.1, get_parents p.2.select))

/-- A node is ready when all its dependencies are already ordered. -/
def depsSatisfied (done : List String) (p : String × List String) : Bool :=
  p.2.all (fun dp => done.contains dp)

/-- Modelled from the spec: the topological sort of `sort_by_dependency`
from `region.py` (absent from src): repeatedly emit every node whose
dependencies are all emitted; if no node is ready while some remain, the
dependencies are cyclic and a dependency error is raised.  The fuel
argument bounds the number of rounds by the node count. -/
def topoGo : ℕ → List (String × List String) → List String → Except String (List String)
  | 0, remaining, order =>
    if remaining.isEmpty then .ok order else .error "cyclic dependency detected!"
  | n + 1, remaining, order =>
    if remaining.isEmpty then .ok order
    else if (remaining.filter (depsSatisfied order)).isEmpty then
      .error "cyclic dependency detected!"
    else
      topoGo n (remaining.filter (fun p => !(depsSatisfied order p)))
        (order ++ (remaining.filter (depsSatisfied order)).map Prod.fst)

/-- Modelled from the spec: `sort_by_dependency` from `region.py` (absent
from src). -/
def sort_by_dependency (graph : List (String × List String)) : Except String (List String) :=
  topoGo graph.length graph []

/-- The definition loop of `Domain.create_regions`: evaluate each region
definition in the sorted order, accumulating the materialized regions. -/
def create_regions_go (domain : Domain) (region_defs : List (String × RegionDef))
    (functions : List (String × List ℕ)) :
    List String → List Region → Except String (List Region)
  | [], regions => .ok regions
  | name :: rest, regions =>
    match region_defs.find? (fun p => p.1 == name) with
    | none => .error ("region " ++ name ++ " is not defined!")
    | some p =>
      match create_region domain regions name p.2.select p.2.kind p.2.parent
          false true functions with
      | .error e => .error e
      | .ok q => create_regions_go domain region_defs functions rest q.1

/-- `Domain.create_regions` from `domain.py`: sort the definitions by
dependencies, then define the regions in that order. -/
def create_regions (domain : Domain) (region_defs : List (String × RegionDef))
    (functions : List (String × List ℕ)) : Except String (List Region) :=
  match sort_by_dependency (get_dependency_graph region_defs) with
  | .error e => .error e
  | .ok sorted_regions => create_regions_go domain region_defs functions sorted_regions []

lemma topoGo_sound (n : ℕ) :
    ∀ (remaining : List (String × List String)) (order final : List String),
      topoGo n remaining order = .ok final →
      (remaining.map Prod.fst).Nodup →
      order.Nodup →
      (∀ p ∈ remaining, p.1 ∉ order) →
      (∃ tail, final = order ++ tail) ∧
        (∀ p ∈ remaining, ∀ dep ∈ p.2, final.indexOf dep < final.indexOf p.1) := by
  induction n with
  | zero =>
    intro remaining order final h hnd hond hdisj
    unfold topoGo at h
    split at h
    · rename_i hemp
      simp only [Except.ok.injEq] at h
      subst h
      rw [List.isEmpty_iff] at hemp
      subst hemp
      exact ⟨⟨[], by simp⟩, by simp⟩
    · exact absurd h (by simp)
  | succ n ih =>
    intro remaining order final h hnd hond hdisj
    unfold topoGo at h
    split at h
    · rename_i hemp
      simp only [Except.ok.injEq] at h
      subst h
      rw [List.isEmpty_iff] at hemp
      subst hemp
      exact ⟨⟨[], by simp⟩, by simp⟩
    · rename_i hemp
      split at h
      · exact absurd h (by simp)
      · rename_i hready
        have hinj := List.inj_on_of_nodup_map hnd
        have hsubr : List.Sublist (remaining.filter (depsSatisfied order)) remaining :=
          List.filter_sublist remaining
        have hsubn : List.Sublist
            (remaining.filter (fun p => !(depsSatisfied order p))) remaining :=
          List.filter_sublist remaining
        have hndr : ((remaining.filter (depsSatisfied order)).map Prod.fst).Nodup :=
          (hsubr.map Prod.fst).nodup hnd
        have hndn : ((remaining.filter (fun p => !(depsSatisfied order p))).map Prod.fst).Nodup :=
          (hsubn.map Prod.fst).nodup hnd
        have hdisj2 : List.Disjoint order
            ((remaining.filter (depsSatisfied order)).map Prod.fst) := by
          intro a ha hb
          rcases List.mem_map.mp hb with ⟨q, hq, hfq⟩
          exact hdisj q (hsubr.subset hq) (hfq ▸ ha)
        have hond2 : (order ++ (remaining.filter (depsSatisfied order)).map Prod.fst).Nodup :=
          List.Nodup.append hond hndr hdisj2
        have hdisj3 : ∀ p ∈ remaining.filter (fun p => !(depsSatisfied order p)),
            p.1 ∉ order ++ (remaining.filter (depsSatisfied order)).map Prod.fst := by
          intro p hp hmem
          have hpr : p ∈ remaining := hsubn.subset hp
          rcases List.mem_append.mp hmem with hmem1 | hmem2
          · exact hdisj p hpr hmem1
          · rcases List.mem_map.mp hmem2 with ⟨q, hq, hfq⟩
            have hqr : q ∈ remaining := hsubr.subset hq
            have hpq : q = p := hinj hqr hpr hfq
            subst hpq
            have h1 := (List.mem_filter.mp hp).2
            have h2 := (List.mem_filter.mp hq).2
            rw [h2] at h1
            exact absurd h1 (by simp)
        obtain ⟨⟨tail, hfinal⟩, hgood⟩ := ih _ _ final h hndn hond2 hdisj3
        constructor
        · exact ⟨(remaining.filter (depsSatisfied order)).map Prod.fst ++ tail,
            by rw [hfinal, List.append_assoc]⟩
        · intro p hp dep hdep
          by_cases hsat : depsSatisfied order p = true
          · have hdepmem : dep ∈ order := by
              have := hsat
              simp only [depsSatisfied, List.all_eq_true] at this
              have h2 := this dep hdep
              simpa using h2
            have hp1 : p.1 ∉ order := hdisj p hp
            have hfin2 : final = order ++
                ((remaining.filter (depsSatisfied order)).map Prod.fst ++ tail) := by
              rw [hfinal, List.append_assoc]
            rw [hfin2]
            rw [List.indexOf_append_of_mem hdepmem, List.indexOf_append_of_not_mem hp1]
            calc List.indexOf dep order < order.length := List.indexOf_lt_length.mpr hdepmem
              _ ≤ order.length + List.indexOf p.1
                  ((remaining.filter (depsSatisfied order)).map Prod.fst ++ tail) :=
                Nat.le_add_right _ _
          · have hpn : p ∈ remaining.filter (fun p => !(depsSatisfied order p)) :=
              List.mem_filter.mpr ⟨hp, by simp [hsat]⟩
            exact hgood p hpn dep hdep

/-- One reference edge over a definition set: region a's selection text
references region b by name. -/
def refStep (defs : List (String × RegionDef)) (a b : String) : Prop :=
  ∃ rd, (a, rd) ∈ defs ∧ b ∈ get_parents rd.select

lemma chain_succ (r : String → String → Prop) :
    ∀ (l : List String) (a : String), List.Chain r a l →
      ∀ s ∈ a :: l,
        (∃ t ∈ a :: l, r s t) ∨ s = (a :: l).getLast (List.cons_ne_nil a l) := by
  intro l
  induction l with
  | nil =>
    intro a _ s hs
    right
    simpa using hs
  | cons b l2 ih =>
    intro a hchain s hs
    rw [List.chain_cons] at hchain
    obtain ⟨hab, hchain2⟩ := hchain
    rcases List.mem_cons.mp hs with rfl | hs2
    · exact Or.inl ⟨b, List.mem_cons.mpr (Or.inr (List.mem_cons_self b l2)), hab⟩
    · rcases ih b hchain2 s hs2 with ⟨t, ht, hst⟩ | hlast
      · exact Or.inl ⟨t, List.mem_cons.mpr (Or.inr ht), hst⟩
      · right
        rw [List.getLast_cons (List.cons_ne_nil b l2)]
        exact hlast

lemma topoGo_stuck (n : ℕ) :
    ∀ (remaining : List (String × List String)) (order : List String) (S : List String),
      (remaining.map Prod.fst).Nodup →
      S ≠ [] →
      (∀ s ∈ S, s ∉ order) →
      (∀ s ∈ S, ∃ p ∈ remaining, p.1 = s ∧ ∃ dep ∈ p.2, dep ∈ S) →
      topoGo n remaining order = .error "cyclic dependency detected!" := by
  induction n with
  | zero =>
    intro remaining order S hnd hS hdisj hstuck
    obtain ⟨s0, hs0⟩ : ∃ s, s ∈ S := by
      cases S with
      | nil => exact absurd rfl hS
      | cons a t => exact ⟨a, List.mem_cons_self a t⟩
    obtain ⟨p, hp, -, -⟩ := hstuck s0 hs0
    have hne : ¬ remaining.isEmpty = true := by
      rw [List.isEmpty_iff]
      intro h
      rw [h] at hp
      simp at hp
    unfold topoGo
    rw [if_neg hne]
  | succ n ih =>
    intro remaining order S hnd hS hdisj hstuck
    obtain ⟨s0, hs0⟩ : ∃ s, s ∈ S := by
      cases S with
      | nil => exact absurd rfl hS
      | cons a t => exact ⟨a, List.mem_cons_self a t⟩
    obtain ⟨p0, hp0, -, -⟩ := hstuck s0 hs0
    have hne : ¬ remaining.isEmpty = true := by
      rw [List.isEmpty_iff]
      intro h
      rw [h] at hp0
      simp at hp0
    unfold topoGo
    rw [if_neg hne]
    by_cases hready : (remaining.filter (depsSatisfied order)).isEmpty = true
    · rw [if_pos hready]
    · rw [if_neg hready]
      apply ih _ _ S
      · exact ((List.filter_sublist remaining).map Prod.fst).nodup hnd
      · exact hS
      · intro s hs hmem
        rcases List.mem_append.mp hmem with h1 | h2
        · exact hdisj s hs h1
        · rcases List.mem_map.mp h2 with ⟨q, hq, hfq⟩
          have hqr : q ∈ remaining := (List.filter_sublist remaining).subset hq
          have hqsat : depsSatisfied order q = true := (List.mem_filter.mp hq).2
          obtain ⟨p, hp, hps, dep, hdep, hdepS⟩ := hstuck s hs
          have hinj := List.inj_on_of_nodup_map hnd
          have hqp : q = p := hinj hqr hp (by rw [hfq, hps])
          subst hqp
          simp only [depsSatisfied, List.all_eq_true] at hqsat
          have hdo := hqsat dep hdep
          simp at hdo
          exact hdisj dep hdepS hdo
      · intro s hs
        obtain ⟨p, hp, hps, dep, hdep, hdepS⟩ := hstuck s hs
        refine ⟨p, List.mem_filter.mpr ⟨hp, ?_⟩, hps, dep, hdep, hdepS⟩
        cases hsat : depsSatisfied order p with
        | false => simp
        | true =>
          exfalso
          simp only [depsSatisfied, List.all_eq_true] at hsat
          have hdo := hsat dep hdep
          simp at hdo
          exact hdisj dep hdepS hdo

lemma sort_errors_of_mutual_refs (defs : List (String × RegionDef)) (X Y : String)
    (hnd : (defs.map Prod.fst).Nodup)
    (hXY : Relation.TransGen (refStep defs) X Y)
    (hYX : Relation.TransGen (refStep defs) Y X) :
    sort_by_dependency (get_dependency_graph defs) =
      .error "cyclic dependency detected!" := by
  obtain ⟨c, hXc, hcY⟩ := Relation.TransGen.head'_iff.mp hXY
  have hcX : Relation.ReflTransGen (refStep defs) c X := hcY.trans hYX.to_reflTransGen
  obtain ⟨l, hchain, hlast⟩ := List.exists_chain_of_relationReflTransGen hcX
  have hstep : ∀ s ∈ X :: c :: l, ∃ t ∈ X :: c :: l, refStep defs s t := by
    intro s hs
    rcases List.mem_cons.mp hs with rfl | hs2
    · exact ⟨c, by simp, hXc⟩
    · rcases chain_succ (refStep defs) l c hchain s hs2 with ⟨t, ht, hst⟩ | hlast2
      · exact ⟨t, List.mem_cons.mpr (Or.inr ht), hst⟩
      · have hsX : s = X := hlast2.trans hlast
        subst hsX
        exact ⟨c, by simp, hXc⟩
  have hnd2 : ((get_dependency_graph defs).map Prod.fst).Nodup := by
    simpa [get_dependency_graph, List.map_map, Function.comp] using hnd
  unfold sort_by_dependency
  apply topoGo_stuck _ _ _ (X :: c :: l) hnd2 (by simp) (by simp)
  intro s hs
  obtain ⟨t, ht, rd, hrd, hpar⟩ := hstep s hs
  exact ⟨(s, get_parents rd.select),
    List.mem_map_of_mem (fun p => (p.1, get_parents p.2.select)) hrd, rfl, t, hpar, ht⟩

/-- C2: in one `create_regions` pass over uniquely named definitions, a
successful dependency sort places every region referenced by another
region's selection text strictly before the referencing region; and in
every definition set in which two regions reference each other, directly
or transitively (mutually related by the transitive closure of the
reference-edge relation), the whole pass fails with the dependency error,
before any region is evaluated. -/
theorem dependency_order_respected_and_cycle_errors :
    (∀ (defs : List (String × RegionDef)) (order : List String) (X Y : String)
        (rd : RegionDef),
      (defs.map Prod.fst).Nodup →
      sort_by_dependency (get_dependency_graph defs) = .ok order →
      (X, rd) ∈ defs → Y ∈ get_parents rd.select →
      order.indexOf Y < order.indexOf X)
    ∧ (∀ (d : Domain) (fns : List (String × List ℕ))
        (defs : List (String × RegionDef)) (X Y : String),
      (defs.map Prod.fst).Nodup →
      Relation.TransGen (refStep defs) X Y →
      Relation.TransGen (refStep defs) Y X →
      create_regions d defs fns = .error "cyclic dependency detected!") := by
  constructor
  · intro defs order X Y rd hnd hsort hmem hdep
    have hnd2 : ((get_dependency_graph defs).map Prod.fst).Nodup := by
      simpa [get_dependency_graph, List.map_map, Function.comp] using hnd
    obtain ⟨_, hgood⟩ :=
      topoGo_sound (get_dependency_graph defs).length (get_dependency_graph defs) [] order
        hsort hnd2 (by simp) (by simp)
    have hmem2 : (X, get_parents rd.select) ∈ get_dependency_graph defs :=
      List.mem_map_of_mem (fun p => (p.1, get_parents p.2.select)) hmem
    exact hgood (X, get_parents rd.select) hmem2 Y hdep
  · intro d fns defs X Y hnd hXY hYX
    have hsort := sort_errors_of_mutual_refs defs X Y hnd hXY hYX
    unfold create_regions
    rw [hsort]

/-- Closed witness for `dependency_order_respected_and_cycle_errors`:
definition B references A by name and the resolved order evaluates A
strictly before B; and the three-definition pass A, B, C with A
referencing B, B referencing C and C referencing A (a transitive cycle
between A and C) fails with the dependency error. -/
theorem dependency_order_respected_and_cycle_errors_witness :
    ((["A", "B"] : List String).indexOf "A" < (["A", "B"] : List String).indexOf "B")
    ∧ create_regions demoDomain
        [("A", ⟨"r.B", "cell", none⟩), ("B", ⟨"r.C", "cell", none⟩),
          ("C", ⟨"r.A", "cell", none⟩)] [] = .error "cyclic dependency detected!" := by
  constructor
  · exact dependency_order_respected_and_cycle_errors.1
      [("B", ⟨"r.A", "cell", none⟩), ("A", ⟨"all", "cell", none⟩)] ["A", "B"] "B" "A"
      ⟨"r.A", "cell", none⟩ (by decide) (by rfl) (by decide) (by decide)
  · have sAB : refStep
        [("A", ⟨"r.B", "cell", none⟩), ("B", ⟨"r.C", "cell", none⟩),
          ("C", ⟨"r.A", "cell", none⟩)] "A" "B" :=
      ⟨⟨"r.B", "cell", none⟩, by decide, by decide⟩
    have sBC : refStep
        [("A", ⟨"r.B", "cell", none⟩), ("B", ⟨"r.C", "cell", none⟩),
          ("C", ⟨"r.A", "cell", none⟩)] "B" "C" :=
      ⟨⟨"r.C", "cell", none⟩, by decide, by decide⟩
    have sCA : refStep
        [("A", ⟨"r.B", "cell", none⟩), ("B", ⟨"r.C", "cell", none⟩),
          ("C", ⟨"r.A", "cell", none⟩)] "C" "A" :=
      ⟨⟨"r.A", "cell", none⟩, by decide, by decide⟩
    exact dependency_order_respected_and_cycle_errors.2 demoDomain []
      [("A", ⟨"r.B", "cell", none⟩), ("B", ⟨"r.C", "cell", none⟩),
        ("C", ⟨"r.A", "cell", none⟩)] "A" "C" (by decide)
      (Relation.TransGen.head sAB (Relation.TransGen.single sBC))
      (Relation.TransGen.single sCA)

/-- Region lookup by name, modelling `self.regions[name]` (the
collection's getitem; a missing name raises). -/
def regions_find (regions : List Region) (nm : String) : Except String Region :=
  match regions.find? (fun r => r.name == nm) with
  | some r => .ok r
  | none => .error ("no region " ++ nm ++ "!")

/-- The whole-domain-first reordering loop of
`Domain.save_regions_as_groups`: walk the names in order; at the first
region whose vertex count equals the mesh vertex count, move that
region's name to the front (removing its first occurrence) and stop; if
none matches, keep the original order. -/
def reorder_names_go (regions : List Region) (names : List String) (n_nod : ℕ) :
    List String → Except String (List String)
  | [] => .ok names
  | nm :: rest =>
    match regions_find regions nm with
    | .error e => .error e
    | .ok region =>
      if region.vertices.length = n_nod then .ok (region.name :: names.erase region.name)
      else reorder_names_go regions names n_nod rest

/-- The name order in which `save_regions_as_groups` assigns node-group
ids: the region at position k of the result receives id k, so the front
position is the reserved id 0. -/
def save_groups_order (regions : List Region) (names : List String) (n_nod : ℕ) :
    Except String (List String) :=
  reorder_names_go regions names n_nod names

lemma length_eq_of_covers (l : List ℕ) (n : ℕ) (hnd : l.Nodup)
    (hb : ∀ v ∈ l, v < n) (hall : ∀ i < n, i ∈ l) : l.length = n := by
  have h1 : l.toFinset = Finset.range n := by
    ext a
    simp only [List.mem_toFinset, Finset.mem_range]
    exact ⟨fun ha => hb a ha, fun ha => hall a ha⟩
  have h2 := List.toFinset_card_of_nodup hnd
  rw [h1, Finset.card_range] at h2
  exact h2.symm

lemma length_ne_of_misses (l : List ℕ) (n i : ℕ) (hnd : l.Nodup)
    (hb : ∀ v ∈ l, v < n) (hi : i < n) (hni : i ∉ l) : l.length ≠ n := by
  have hsub : l.toFinset ⊆ Finset.range n := by
    intro a ha
    simp only [Finset.mem_range]
    exact hb a (List.mem_toFinset.mp ha)
  have hss : l.toFinset ⊂ Finset.range n := by
    refine ⟨hsub, fun hsup => hni ?_⟩
    exact List.mem_toFinset.mp (hsup (Finset.mem_range.mpr hi))
  have hcard := Finset.card_lt_card hss
  rw [Finset.card_range] at hcard
  have h2 := List.toFinset_card_of_nodup hnd
  omega

lemma reorder_names_go_finds (regions : List Region) (names : List String) (n_nod : ℕ)
    (nmR : String) (r : Region) (post : List String)
    (hfind : regions_find regions nmR = .ok r) (hname : r.name = nmR)
    (hlen : r.vertices.length = n_nod) :
    ∀ pre, (∀ nm ∈ pre, ∃ rp, regions_find regions nm = .ok rp ∧
        rp.vertices.length ≠ n_nod) →
      reorder_names_go regions names n_nod (pre ++ nmR :: post) =
        .ok (nmR :: names.erase nmR) := by
  intro pre
  induction pre with
  | nil =>
    intro _
    unfold reorder_names_go
    rw [List.nil_append]
    simp only [hfind, hlen, hname, if_true]
  | cons nm pre ih =>
    intro hpre
    obtain ⟨rp, hrp, hne⟩ := hpre nm (List.mem_cons_self nm pre)
    have := ih (fun x hx => hpre x (List.mem_cons.mpr (Or.inr hx)))
    unfold reorder_names_go
    rw [List.cons_append]
    simp only [hrp, if_neg hne]
    exact this

/-- C9: when a region collection is serialized by group id, the
whole-domain region (vertex set valid, duplicate-free and containing
every mesh vertex) takes the reserved first position of the serialization
order, given that the regions listed before it each miss some vertex: it
is therefore assigned node-group id 0 before any other region is
numbered. -/
theorem whole_domain_region_gets_group_zero
    (regions : List Region) (pre post : List String) (nmR : String) (r : Region)
    (n_nod : ℕ)
    (hfind : regions_find regions nmR = .ok r) (hname : r.name = nmR)
    (hnd : r.vertices.Nodup) (hb : ∀ v ∈ r.vertices, v < n_nod)
    (hall : ∀ i < n_nod, i ∈ r.vertices)
    (hpre : ∀ nm ∈ pre, ∃ rp, regions_find regions nm = .ok rp ∧ rp.vertices.Nodup ∧
      (∀ v ∈ rp.vertices, v < n_nod) ∧ ∃ i, i < n_nod ∧ i ∉ rp.vertices) :
    save_groups_order regions (pre ++ nmR :: post) n_nod =
      .ok (nmR :: (pre ++ nmR :: post).erase nmR) ∧
    ∀ out, save_groups_order regions (pre ++ nmR :: post) n_nod = .ok out →
      out.indexOf nmR = 0 := by
  have hlen := length_eq_of_covers r.vertices n_nod hnd hb hall
  have hpre2 : ∀ nm ∈ pre, ∃ rp, regions_find regions nm = .ok rp ∧
      rp.vertices.length ≠ n_nod := by
    intro nm hnm
    obtain ⟨rp, h1, h2, h3, i, hi1, hi2⟩ := hpre nm hnm
    exact ⟨rp, h1, length_ne_of_misses rp.vertices n_nod i h2 h3 hi1 hi2⟩
  have hmain := reorder_names_go_finds regions (pre ++ nmR :: post) n_nod nmR r post
    hfind hname hlen pre hpre2
  refine ⟨hmain, ?_⟩
  intro out hout
  unfold save_groups_order at hout
  rw [hmain] at hout
  simp only [Except.ok.injEq] at hout
  rw [← hout]
  exact List.indexOf_cons_self nmR _

/-- A materialized demo region missing vertices 0 and 3. -/
def regionHalf : Region :=
  { name := "H", definition := "", kind := "vertex", parent := none, parse_def := "",
    vertices := [1, 2], edges := [], faces := [], facets := [], cells := [] }

/-- Closed witness for `whole_domain_region_gets_group_zero`: with
regions H (missing vertex 0) and Y (all four vertices) listed as H, Y,
the serialization order starts with Y, which gets id 0. -/
theorem whole_domain_region_gets_group_zero_witness :
    save_groups_order [regionHalf, regionY] (["H"] ++ "Y" :: []) 4 =
      .ok ("Y" :: (["H"] ++ "Y" :: []).erase "Y") ∧
    ∀ out, save_groups_order [regionHalf, regionY] (["H"] ++ "Y" :: []) 4 = .ok out →
      out.indexOf "Y" = 0 :=
  whole_domain_region_gets_group_zero [regionHalf, regionY] ["H"] [] "Y" regionY 4
    rfl rfl (by decide) (by decide) (by decide)
    (fun nm hnm => by
      have hh : nm = "H" := by simpa using hnm
      subst hh
      exact ⟨regionHalf, rfl, by decide, by decide, ⟨0, by decide, by decide⟩⟩)
